import Mathlib

/-!
Shallow embedding of `spacepy/datamodel.py`: the `dmarray` numpy subclass
(attribute-restricted array carrying an `attrs` metadata mapping) and the
`SpaceData` dict subclass.

Python mappings are mutable heap objects, so attribute values are modelled
as `PyVal` references into a `Store` (a heap of dictionaries addressed by
index); this is what lets reference-sharing versus copying be observed.
-/

instance {ε α : Type} [DecidableEq ε] [DecidableEq α] : DecidableEq (Except ε α) := fun x y =>
  match x, y with
  | .ok a, .ok b => if h : a = b then .isTrue (by rw [h]) else .isFalse (by simp [h])
  | .error a, .error b => if h : a = b then .isTrue (by rw [h]) else .isFalse (by simp [h])
  | .ok _, .error _ => .isFalse (by simp)
  | .error _, .ok _ => .isFalse (by simp)

/-- A Python value as it occurs in this module: integers, strings,
references to heap-allocated dictionaries, lists of strings (the
`Allowed_Attributes` lists), and `None`. -/
inductive PyVal where
  | int : Int → PyVal
  | str : String → PyVal
  | ref : Nat → PyVal
  | strlist : List String → PyVal
  | nonev : PyVal
deriving DecidableEq

/-- A Python dictionary's contents: key/value pairs in insertion order. -/
abbrev Dict := List (String × PyVal)

/-- The heap of dictionary objects, addressed by index. -/
abbrev Store := List Dict

/-- Dictionary lookup (`d[k]` / `d.get(k)`). -/
def dlook : Dict → String → Option PyVal
  | [], _ => none
  | (k', v') :: rest, k => if k' = k then some v' else dlook rest k

/-- Dictionary item assignment `d[k] = v`: update in place if the key is
present (keeping its position), else append. -/
def dsetVal : Dict → String → PyVal → Dict
  | [], k, v => [(k, v)]
  | (k', v') :: rest, k, v =>
      if k' = k then (k, v) :: rest else (k', v') :: dsetVal rest k v

/-- Python `del d[k]`: remove the key from the dictionary. -/
def dremove (d : Dict) (k : String) : Dict :=
  d.filter (fun kv => kv.1 ≠ k)

/-- Read the dictionary object at heap address `r`. -/
def storeGet (st : Store) (r : Nat) : Dict := st.getD r []

/-- Mutate the dictionary object at heap address `r`: `heap[r][k] = v`. -/
def dictSetItem (st : Store) (r : Nat) (k : String) (v : PyVal) : Store :=
  st.set r (dsetVal (storeGet st r) k v)

/-- The state of a numpy ndarray buffer: shape, dtype and element values
(the numeric payload `dmarray` delegates to `numpy.ndarray`). -/
structure NdBuffer where
  shape : List Nat
  dtype : String
  data : List Int
deriving DecidableEq

/-- The class attribute `dmarray.Allowed_Attributes = ['attrs']`. -/
def classAllowed : List String := ["attrs"]

/-- A `dmarray` instance: the underlying ndarray buffer, the value of
`self.Allowed_Attributes` (the class list `classAllowed` until an instance
assignment shadows it), and the instance `__dict__` holding `attrs` and any
`extra_attr_<n>` entries. -/
structure Dmarray where
  nd : NdBuffer
  allowed : List String
  attrdict : Dict
deriving DecidableEq

/-- Method `dmarray.__setattr__(self, name, value)`: names equal to
`'Allowed_Attributes'` pass, names in `self.Allowed_Attributes` pass, any
other name raises `TypeError`; a passing assignment is performed by
`super().__setattr__`. An assignment to `Allowed_Attributes` (always a list
of strings in the source) updates the `allowed` field, which models the
shadowing instance attribute. -/
def dmSetattr (a : Dmarray) (name : String) (v : PyVal) : Except String Dmarray :=
  if name = "Allowed_Attributes" then
    match v with
    | .strlist l => .ok { a with allowed := l }
    | _ => .ok a
  else if name ∈ a.allowed then
    .ok { a with attrdict := dsetVal a.attrdict name v }
  else
    .error "Only attribute listed in Allowed_Attributes can be set"

/-- Python attribute lookup on a `dmarray` instance: `Allowed_Attributes`
resolves (through the instance or the class) to the `allowed` field, other
names resolve through the instance `__dict__`. -/
def dmGetattribute (a : Dmarray) (name : String) : Option PyVal :=
  if name = "Allowed_Attributes" then some (.strlist a.allowed)
  else dlook a.attrdict name

/-- The `obj` argument of `__array_finalize__`: `None`, a plain
`numpy.ndarray` (no `attrs`), or a `dmarray` source instance. -/
inductive FinalizeSrc where
  | none : FinalizeSrc
  | plain : NdBuffer → FinalizeSrc
  | dm : Dmarray → FinalizeSrc
deriving DecidableEq

/-- Python `getattr(obj, val, ...)` with an empty-dict default, as used by `__array_finalize__`: the default
`{}` literal is a fresh empty dictionary allocated on the heap; the
attribute value is returned when present, else a reference to the fresh
empty dictionary. -/
def getattrD (st : Store) (obj : FinalizeSrc) (name : String) : Store × PyVal :=
  let st1 := st ++ [[]]
  let dflt : PyVal := .ref st.length
  match obj with
  | .dm a =>
    match dmGetattribute a name with
    | some v => (st1, v)
    | Option.none => (st1, dflt)
  | _ => (st1, dflt)

/-- The loop body of `__array_finalize__`:
`for val in self.Allowed_Attributes: self.__setattr__(val, getattr(obj, val, {}))`. -/
def finalizeLoop (obj : FinalizeSrc) : Store → Dmarray → List String → Store × Except String Dmarray
  | st, self, [] => (st, .ok self)
  | st, self, n :: rest =>
    let p := getattrD st obj n
    match dmSetattr self n p.2 with
    | .error e => (p.1, .error e)
    | .ok self1 => finalizeLoop obj p.1 self1 rest

/-- Method `dmarray.__array_finalize__(self, obj)`: return immediately when `obj`
is `None`, else copy each allow-listed attribute from `obj` (defaulting to
a fresh empty mapping) onto `self`. -/
def arrayFinalize (st : Store) (self : Dmarray) (obj : FinalizeSrc) : Store × Except String Dmarray :=
  match obj with
  | .none => (st, .ok self)
  | _ => finalizeLoop obj st self self.allowed

/-- A freshly created `dmarray` instance before `__array_finalize__` runs:
the given buffer, the class `Allowed_Attributes`, an empty `__dict__`. -/
def freshDm (nd : NdBuffer) : Dmarray :=
  { nd := nd, allowed := classAllowed, attrdict := [] }

/-- Method `dmarray.__new__(cls, input_array, attrs=None)`:
`numpy.asarray(input_array).view(cls)` creates a fresh instance and runs
`__array_finalize__` against the plain source array; then `obj.attrs` is
set to `attrs` when `attrs != None`, else to a fresh empty mapping. -/
def dmNew (st : Store) (input : NdBuffer) (attrs : PyVal) : Store × Except String Dmarray :=
  let p := arrayFinalize st (freshDm input) (.plain input)
  match p.2 with
  | .error e => (p.1, .error e)
  | .ok obj =>
    if attrs ≠ PyVal.nonev then
      (p.1, dmSetattr obj "attrs" attrs)
    else
      (p.1 ++ [[]], dmSetattr obj "attrs" (.ref p.1.length))

/-- The pickled state produced by `dmarray.__reduce__`: the ndarray state
slot together with the tuple of allow-listed attribute values, in
`Allowed_Attributes` order. -/
structure DmState where
  nd_state : NdBuffer
  own_state : List PyVal
deriving DecidableEq

/-- Method `dmarray.__reduce__(self)` restricted to its state slot:
`(ndarray_state, tuple(self.__getattribute__(val) for val in self.Allowed_Attributes))`. -/
def dmReduce (a : Dmarray) : DmState :=
  { nd_state := a.nd
  , own_state := a.allowed.map (fun v => (dmGetattribute a v).getD .nonev) }

/-- The synthesized attribute name `'extra_attr_' + str(val)`. -/
def extraName (i : Nat) : String := "extra_attr_" ++ toString i

/-- The loop of `dmarray.__setstate__` over `range(len(own_state))`:
slot 0 is restored as `attrs`; each later slot `i` first extends
`self.Allowed_Attributes` with `extra_attr_i` and then sets that
attribute, both through `__setattr__`. -/
def setstateLoop (a : Dmarray) : List PyVal → Nat → Except String Dmarray
  | [], _ => .ok a
  | v :: rest, i =>
    if i = 0 then
      match dmSetattr a "attrs" v with
      | .error e => .error e
      | .ok a1 => setstateLoop a1 rest (i + 1)
    else
      match dmSetattr a "Allowed_Attributes" (.strlist (a.allowed ++ [extraName i])) with
      | .error e => .error e
      | .ok a1 =>
        match dmSetattr a1 (extraName i) v with
        | .error e => .error e
        | .ok a2 => setstateLoop a2 rest (i + 1)

/-- Method `dmarray.__setstate__(self, state)`: restore the ndarray buffer from
`nd_state`, then restore the attribute slots. -/
def dmSetstate (self : Dmarray) (s : DmState) : Except String Dmarray :=
  setstateLoop { self with nd := s.nd_state } s.own_state 0

/-- The bare instance the unpickler creates before calling `__setstate__`
(numpy's `_reconstruct` makes a dummy array of the subclass;
`__array_finalize__` sees `obj = None` and leaves the `__dict__` empty). -/
def dmReconstruct : Dmarray :=
  { nd := { shape := [0], dtype := "b", data := [] }, allowed := classAllowed, attrdict := [] }

/-- Unpickling a `DmState`: reconstruct a bare instance and run
`__setstate__` on it. -/
def dmDeserialize (s : DmState) : Except String Dmarray :=
  dmSetstate dmReconstruct s

/-- The `attrs` mapping of a `dmarray` as a dictionary value: follow the
`attrs` entry of the instance `__dict__` through the heap. -/
def attrsObj (st : Store) (a : Dmarray) : Option Dict :=
  match dlook a.attrdict "attrs" with
  | some (.ref r) => some (storeGet st r)
  | _ => none

/-- The instance produced by a derivation step (`arrayFinalize`), keeping
the starting instance in the (unreachable) error case. -/
def deriveResult (st : Store) (self : Dmarray) (src : FinalizeSrc) : Store × Dmarray :=
  match arrayFinalize st self src with
  | (st', .ok b) => (st', b)
  | (st', .error _) => (st', self)

/-- Python `hasattr(x, '__getitem__')` for the values of `PyVal`:
strings, dictionaries and lists support item access; integers and `None`
do not. -/
def hasGetitem : PyVal → Bool
  | .int _ => false
  | .str _ => true
  | .ref _ => true
  | .strlist _ => true
  | .nonev => false

/-- A `SpaceData` instance: the dict contents plus the `attrs` instance
attribute. -/
structure SpaceData where
  content : Dict
  attrsv : PyVal
deriving DecidableEq

/-- Python `dict(*args, **kwargs)`: the positional mapping's items (if any)
followed by the keyword pairs assigned one by one. -/
def dictInit (args : Option Dict) (kwargs : Dict) : Dict :=
  kwargs.foldl (fun d kv => dsetVal d kv.1 kv.2) (args.getD [])

/-- Method `SpaceData.__init__(self, *args, **kwargs)`: set `self.attrs` to a
fresh empty mapping; when the keyword `attrs` is present, use its value as
`self.attrs` if it has `__getitem__` and delete the keyword either way;
finally run `dict.__init__` on the remaining arguments. -/
def spaceDataInit (st : Store) (args : Option Dict) (kwargs : Dict) : Store × SpaceData :=
  let st1 := st ++ [[]]
  let attrs0 : PyVal := .ref st.length
  match dlook kwargs "attrs" with
  | some v =>
      let attrs1 := if hasGetitem v then v else attrs0
      (st1, { content := dictInit args (dremove kwargs "attrs"), attrsv := attrs1 })
  | none =>
      (st1, { content := dictInit args kwargs, attrsv := attrs0 })

/-- The `attrs` mapping of a `SpaceData` as a dictionary value. -/
def attrsObjSD (st : Store) (s : SpaceData) : Option Dict :=
  match s.attrsv with
  | .ref r => some (storeGet st r)
  | _ => none

/-- A concrete one-element array buffer used to instantiate theorems about
`dmarray` at a specific input. -/
def sampleNd : NdBuffer := { shape := [1], dtype := "float64", data := [7] }

/-- A concrete reachable `dmarray` whose `attrs` is the mapping at heap
address 0 (as produced by `dmNew [[("k", .str "v")]] sampleNd (.ref 0)`
up to the garbage cell that call appends). -/
def sampleDm : Dmarray :=
  { nd := sampleNd, allowed := ["attrs"], attrdict := [("attrs", PyVal.ref 0)] }

/-- The instance returned by `Construct([7])` in the empty heap, i.e. the
second component of `dmNew [] sampleNd PyVal.nonev`: a freshly constructed
`dmarray` whose `attrs` is the empty mapping at heap address 1. -/
def c3Fresh : Dmarray :=
  { nd := sampleNd, allowed := ["attrs"], attrdict := [("attrs", PyVal.ref 1)] }

theorem dlook_dsetVal_self (d : Dict) (k : String) (v : PyVal) :
    dlook (dsetVal d k v) k = some v := by
  induction d with
  | nil => simp [dsetVal, dlook]
  | cons kv rest ih =>
    obtain ⟨k', v'⟩ := kv
    by_cases h : k' = k
    · simp [dsetVal, h, dlook]
    · simp [dsetVal, h, dlook, ih]

theorem dlook_dsetVal_ne (d : Dict) (k k' : String) (v : PyVal) (h : k' ≠ k) :
    dlook (dsetVal d k v) k' = dlook d k' := by
  induction d with
  | nil => simp [dsetVal, dlook, Ne.symm h]
  | cons kv rest ih =>
    obtain ⟨k1, v1⟩ := kv
    by_cases h1 : k1 = k
    · subst h1
      simp [dsetVal, dlook, Ne.symm h]
    · simp [dsetVal, h1, dlook, ih]

theorem storeGet_append_nil (st : Store) (r : Nat) :
    storeGet (st ++ [[]]) r = storeGet st r := by
  unfold storeGet
  rcases Nat.lt_or_ge r st.length with h | h
  · rw [List.getD_append _ _ _ _ h]
  · rw [List.getD_append_right _ _ _ _ h, List.getD_eq_default _ _ h]
    rcases Nat.eq_or_lt_of_le h with h2 | h2
    · simp [← h2]
    · rw [List.getD_eq_default]
      simp only [List.length_singleton]
      omega

theorem extraName_ne_attrs (i : Nat) : extraName i ≠ "attrs" := by
  intro h
  rw [extraName, String.congr_append] at h
  have h2 : "extra_attr_".data ++ (toString i).data = "attrs".data := congrArg String.data h
  have h3 : "extra_attr_".data = ['e', 'x', 't', 'r', 'a', '_', 'a', 't', 't', 'r', '_'] := rfl
  have h4 : "attrs".data = ['a', 't', 't', 'r', 's'] := rfl
  rw [h3, h4] at h2
  simp at h2

theorem dmSetattr_nd (a : Dmarray) (n : String) (v : PyVal) (b : Dmarray)
    (h : dmSetattr a n v = .ok b) : b.nd = a.nd := by
  unfold dmSetattr at h
  by_cases h1 : n = "Allowed_Attributes"
  · rw [if_pos h1] at h
    cases v <;> simp only [Except.ok.injEq] at h <;> rw [← h]
  · rw [if_neg h1] at h
    by_cases h2 : n ∈ a.allowed
    · rw [if_pos h2] at h
      simp only [Except.ok.injEq] at h
      rw [← h]
    · rw [if_neg h2] at h
      exact absurd h (by simp)

theorem dmSetattr_allowed_list (a : Dmarray) (l : List String) :
    dmSetattr a "Allowed_Attributes" (.strlist l) = .ok { a with allowed := l } := by
  simp [dmSetattr]

theorem dmSetattr_attrs_ok (a : Dmarray) (v : PyVal) (h : "attrs" ∈ a.allowed) :
    dmSetattr a "attrs" v = .ok { a with attrdict := dsetVal a.attrdict "attrs" v } := by
  unfold dmSetattr
  rw [if_neg (by decide), if_pos h]

theorem dmSetattr_ok_attrs_pres (a : Dmarray) (n : String) (v : PyVal)
    (hn : n = "Allowed_Attributes" ∨ n ∈ a.allowed) (hne : n ≠ "attrs") :
    ∃ b, dmSetattr a n v = .ok b ∧ b.nd = a.nd ∧
      dlook b.attrdict "attrs" = dlook a.attrdict "attrs" := by
  unfold dmSetattr
  by_cases h1 : n = "Allowed_Attributes"
  · rw [if_pos h1]
    cases v
    all_goals exact ⟨_, rfl, rfl, rfl⟩
  · rw [if_neg h1]
    rcases hn with h | h
    · exact absurd h h1
    · rw [if_pos h]
      exact ⟨_, rfl, rfl, dlook_dsetVal_ne _ _ _ _ (Ne.symm hne)⟩

theorem setstateLoop_tail (own : List PyVal) :
    ∀ (a : Dmarray) (i : Nat), 1 ≤ i →
      ∃ b, setstateLoop a own i = .ok b ∧ b.nd = a.nd ∧
        dlook b.attrdict "attrs" = dlook a.attrdict "attrs" := by
  induction own with
  | nil =>
    intro a i _
    exact ⟨a, rfl, rfl, rfl⟩
  | cons v rest ih =>
    intro a i hi
    have hi0 : ¬ i = 0 := by omega
    obtain ⟨a2, h2, hnd2, hat2⟩ := dmSetattr_ok_attrs_pres
      { a with allowed := a.allowed ++ [extraName i] } (extraName i) v
      (Or.inr (by simp)) (extraName_ne_attrs i)
    obtain ⟨b, hb, hndb, hatb⟩ := ih a2 (i + 1) (by omega)
    refine ⟨b, ?_, ?_, ?_⟩
    · simp only [setstateLoop, if_neg hi0, dmSetattr_allowed_list, h2]
      exact hb
    · rw [hndb, hnd2]
    · rw [hatb, hat2]

theorem dmGetattribute_attrs (a : Dmarray) :
    dmGetattribute a "attrs" = dlook a.attrdict "attrs" := by
  unfold dmGetattribute
  rw [if_neg (by decide)]

theorem finalize_dm_of_allowed (st : Store) (self : Dmarray) (a : Dmarray) (v : PyVal)
    (hself : self.allowed = classAllowed)
    (hv : dlook a.attrdict "attrs" = some v) :
    arrayFinalize st self (.dm a) =
      (st ++ [[]], .ok { self with attrdict := dsetVal self.attrdict "attrs" v }) := by
  have hga : dmGetattribute a "attrs" = some v := by rw [dmGetattribute_attrs, hv]
  have hmem : "attrs" ∈ self.allowed := by rw [hself]; decide
  simp only [arrayFinalize, hself, classAllowed]
  simp only [finalizeLoop, getattrD, hga]
  rw [dmSetattr_attrs_ok _ _ hmem]
  simp [hself, classAllowed]

theorem finalize_dm_noattrs_of_allowed (st : Store) (self : Dmarray) (a : Dmarray)
    (hself : self.allowed = classAllowed)
    (hv : dlook a.attrdict "attrs" = none) :
    arrayFinalize st self (.dm a) =
      (st ++ [[]],
       .ok { self with attrdict := dsetVal self.attrdict "attrs" (.ref st.length) }) := by
  have hga : dmGetattribute a "attrs" = none := by rw [dmGetattribute_attrs, hv]
  have hmem : "attrs" ∈ self.allowed := by rw [hself]; decide
  simp only [arrayFinalize, hself, classAllowed]
  simp only [finalizeLoop, getattrD, hga]
  rw [dmSetattr_attrs_ok _ _ hmem]
  simp [hself, classAllowed]

theorem finalize_plain_of_allowed (st : Store) (self : Dmarray) (src : NdBuffer)
    (hself : self.allowed = classAllowed) :
    arrayFinalize st self (.plain src) =
      (st ++ [[]],
       .ok { self with attrdict := dsetVal self.attrdict "attrs" (.ref st.length) }) := by
  have hmem : "attrs" ∈ self.allowed := by rw [hself]; decide
  simp only [arrayFinalize, hself, classAllowed]
  simp only [finalizeLoop, getattrD]
  rw [dmSetattr_attrs_ok _ _ hmem]
  simp [hself, classAllowed]

theorem storeGet_append_self (st : Store) : storeGet (st ++ [[]]) st.length = [] := by
  unfold storeGet
  rw [List.getD_append_right _ _ _ _ (le_refl _)]
  simp

theorem attrsObj_append_nil (st : Store) (b : Dmarray) :
    attrsObj (st ++ [[]]) b = attrsObj st b := by
  unfold attrsObj
  cases h : dlook b.attrdict "attrs" with
  | none => rfl
  | some v => cases v <;> simp [storeGet_append_nil]

theorem attrsObj_of_ref (st : Store) (b : Dmarray) (r : Nat)
    (h : dlook b.attrdict "attrs" = some (.ref r)) :
    attrsObj st b = some (storeGet st r) := by
  unfold attrsObj
  rw [h]

theorem dsetVal_dsetVal_self (d : Dict) (k : String) (v : PyVal) :
    dsetVal (dsetVal d k v) k v = dsetVal d k v := by
  induction d with
  | nil => simp [dsetVal]
  | cons kv rest ih =>
    obtain ⟨k1, v1⟩ := kv
    by_cases h : k1 = k <;> simp [dsetVal, h, ih]

theorem deriveResult_eq (st : Store) (self : Dmarray) (src : FinalizeSrc) (st' : Store)
    (b : Dmarray) (h : arrayFinalize st self src = (st', .ok b)) :
    deriveResult st self src = (st', b) := by
  unfold deriveResult
  rw [h]

theorem dmNew_given (st : Store) (input : NdBuffer) (av : PyVal) (hav : av ≠ PyVal.nonev) :
    dmNew st input av =
      (st ++ [[]],
       .ok { nd := input, allowed := classAllowed, attrdict := [("attrs", av)] }) := by
  unfold dmNew
  rw [finalize_plain_of_allowed st (freshDm input) input rfl]
  simp only [if_pos hav, freshDm]
  rw [dmSetattr_attrs_ok _ _ (by simp [classAllowed])]
  rfl

theorem dmNew_default (st : Store) (input : NdBuffer) :
    dmNew st input PyVal.nonev =
      (st ++ [[]] ++ [[]],
       .ok { nd := input, allowed := classAllowed,
             attrdict := [("attrs", PyVal.ref (st ++ [[]]).length)] }) := by
  unfold dmNew
  rw [finalize_plain_of_allowed st (freshDm input) input rfl]
  simp only [if_neg (by simp : ¬(PyVal.nonev ≠ PyVal.nonev)), freshDm]
  rw [dmSetattr_attrs_ok _ _ (by simp [classAllowed])]
  rfl

/-- Claim C2: for every AttributedArray instance `a` (its allow-list headed
by `attrs` and each allow-listed attribute present, as holds for every
reachable instance), deserializing the serialized state yields an instance
whose buffer content (shape, dtype, values) equals `a`'s and whose `attrs`
mapping equals `a.attrs`. -/
theorem dmarray_pickle_roundtrip (a : Dmarray) (rest : List String)
    (hal : a.allowed = "attrs" :: rest)
    (hwf : ∀ n ∈ a.allowed, (dmGetattribute a n).isSome = true) :
    ∃ b, dmDeserialize (dmReduce a) = .ok b ∧ b.nd = a.nd ∧
      dlook b.attrdict "attrs" = dlook a.attrdict "attrs" ∧
      ∀ st, attrsObj st b = attrsObj st a := by
  have hmem : "attrs" ∈ a.allowed := by rw [hal]; exact List.mem_cons_self _ _
  obtain ⟨v, hv⟩ := Option.isSome_iff_exists.mp (hwf "attrs" hmem)
  have hva : dlook a.attrdict "attrs" = some v := by
    have : dmGetattribute a "attrs" = dlook a.attrdict "attrs" := by
      unfold dmGetattribute
      rw [if_neg (by decide)]
    rw [← this, hv]
  have hred : dmReduce a =
      { nd_state := a.nd,
        own_state := (dmGetattribute a "attrs").getD .nonev ::
          rest.map (fun n => (dmGetattribute a n).getD .nonev) } := by
    unfold dmReduce
    rw [hal]
    rfl
  have hget : (dmGetattribute a "attrs").getD .nonev = v := by rw [hv]; rfl
  rw [hred, hget]
  unfold dmDeserialize dmSetstate
  simp only [setstateLoop, if_pos rfl,
    dmSetattr_attrs_ok _ _ (by decide : "attrs" ∈ dmReconstruct.allowed)]
  obtain ⟨b, hb, hnd, hat⟩ := setstateLoop_tail
    (rest.map (fun n => (dmGetattribute a n).getD .nonev))
    { nd := a.nd, allowed := dmReconstruct.allowed,
      attrdict := dsetVal dmReconstruct.attrdict "attrs" v } 1 (by omega)
  refine ⟨b, ?_, ?_, ?_, ?_⟩
  · exact hb
  · rw [hnd]
  · rw [hat, hva]
    rfl
  · intro st
    unfold attrsObj
    rw [hat, hva]
    rfl

/-- Witness for C2 at a concrete instance: a one-element float array whose
`attrs` is the mapping at heap address 0. -/
theorem dmarray_pickle_roundtrip_witness :
    ∃ b, dmDeserialize (dmReduce sampleDm) = .ok b ∧ b.nd = sampleDm.nd ∧
      dlook b.attrdict "attrs" = dlook sampleDm.attrdict "attrs" ∧
      ∀ st, attrsObj st b = attrsObj st sampleDm :=
  dmarray_pickle_roundtrip sampleDm [] rfl (by decide)

theorem attrsObjSD_of_ref (st : Store) (s : SpaceData) (r : Nat) (h : s.attrsv = .ref r) :
    attrsObjSD st s = some (storeGet st r) := by
  unfold attrsObjSD
  rw [h]

theorem spaceDataInit_with_attrs (st : Store) (args : Option Dict) (kwargs : Dict) (v : PyVal)
    (h : dlook kwargs "attrs" = some v) :
    spaceDataInit st args kwargs =
      (st ++ [[]],
       { content := dictInit args (dremove kwargs "attrs"),
         attrsv := if hasGetitem v then v else .ref st.length }) := by
  unfold spaceDataInit
  rw [h]

theorem spaceDataInit_no_attrs (st : Store) (args : Option Dict) (kwargs : Dict)
    (h : dlook kwargs "attrs" = none) :
    spaceDataInit st args kwargs =
      (st ++ [[]], { content := dictInit args kwargs, attrsv := .ref st.length }) := by
  unfold spaceDataInit
  rw [h]

theorem dlook_foldl_dsetVal (kwargs : Dict) : ∀ (acc : Dict) (k : String),
    dlook kwargs k = none →
      dlook (kwargs.foldl (fun d kv => dsetVal d kv.1 kv.2) acc) k = dlook acc k := by
  induction kwargs with
  | nil =>
    intro acc k _
    rfl
  | cons kv rest ih =>
    intro acc k h
    obtain ⟨k1, v1⟩ := kv
    by_cases h1 : k1 = k
    · rw [dlook, if_pos h1] at h
      exact absurd h (by simp)
    · rw [dlook, if_neg h1] at h
      rw [List.foldl_cons, ih (dsetVal acc k1 v1) k h]
      exact dlook_dsetVal_ne acc k1 k v1 (Ne.symm h1)

/-- Claim C1: for every `dmarray` whose `attrs` is the mapping `m` stored at
heap address `r`, every new instance derived from it (slice, sub-view, view
cast, ufunc output — each runs `__array_finalize__` on a fresh instance)
has an `attrs` mapping equal to `m` immediately after derivation; the
claim's instance is `m = [("k", "v")]`. -/
theorem dmarray_derivation_preserves_attrs (st : Store) (a : Dmarray) (nd : NdBuffer)
    (r : Nat) (m : Dict)
    (hr : dlook a.attrdict "attrs" = some (.ref r))
    (hm : storeGet st r = m) :
    ∃ st' b, arrayFinalize st (freshDm nd) (.dm a) = (st', .ok b) ∧
      attrsObj st a = some m ∧ attrsObj st' b = some m := by
  refine ⟨st ++ [[]],
    { nd := nd, allowed := classAllowed, attrdict := [("attrs", PyVal.ref r)] }, ?_, ?_, ?_⟩
  · exact finalize_dm_of_allowed st (freshDm nd) a (.ref r) rfl hr
  · rw [attrsObj_of_ref st a r hr, hm]
  · rw [attrsObj_of_ref _ _ r (dlook_dsetVal_self [] "attrs" (PyVal.ref r)),
      storeGet_append_nil, hm]

/-- Witness for C1: the source `sampleDm` with `attrs = {"k": "v"}` at heap
address 0; the derived instance's `attrs` equals `{"k": "v"}`. -/
theorem dmarray_derivation_preserves_attrs_witness :
    ∃ st' b, arrayFinalize [[("k", PyVal.str "v")]] (freshDm sampleNd) (.dm sampleDm) =
        (st', .ok b) ∧
      attrsObj [[("k", PyVal.str "v")]] sampleDm = some [("k", PyVal.str "v")] ∧
      attrsObj st' b = some [("k", PyVal.str "v")] :=
  dmarray_derivation_preserves_attrs [[("k", PyVal.str "v")]] sampleDm sampleNd 0
    [("k", PyVal.str "v")] rfl rfl

/-- Counterexample to claim C5: in the store `[{"k": "v"}]`, deriving from
`sampleDm` (whose `attrs` is the mapping at address 0) yields an instance
whose `attrs` is the same reference 0, and writing `"k2" ↦ "w"` into the
derived instance's `attrs` mapping changes the source's `attrs` mapping —
the two are not independent copies. -/
theorem dmarray_attrs_alias_cex :
    arrayFinalize [[("k", PyVal.str "v")]] (freshDm { shape := [0], dtype := "float64", data := [] })
        (.dm sampleDm) =
      ([[("k", PyVal.str "v")], []],
       .ok { nd := { shape := [0], dtype := "float64", data := [] },
             allowed := ["attrs"], attrdict := [("attrs", PyVal.ref 0)] }) ∧
    dlook [("attrs", PyVal.ref 0)] "attrs" = dlook sampleDm.attrdict "attrs" ∧
    attrsObj (dictSetItem [[("k", PyVal.str "v")], []] 0 "k2" (PyVal.str "w")) sampleDm ≠
      attrsObj [[("k", PyVal.str "v")]] sampleDm := by
  refine ⟨by decide, by decide, by decide⟩

/-- Amended C5: a derived instance does not own an independent copy of the
source's `attrs` mapping; it receives the same reference, so a mutation
made through the derived instance's `attrs` is seen through the source's
`attrs` as well (and vice versa, the mapping object being shared). -/
theorem dmarray_derive_shares_attrs_ref (st : Store) (a : Dmarray) (nd : NdBuffer) (r : Nat)
    (hr : dlook a.attrdict "attrs" = some (.ref r)) :
    ∃ st' b, arrayFinalize st (freshDm nd) (.dm a) = (st', .ok b) ∧
      dlook b.attrdict "attrs" = some (PyVal.ref r) ∧
      ∀ k v, attrsObj (dictSetItem st' r k v) b = attrsObj (dictSetItem st' r k v) a := by
  refine ⟨st ++ [[]],
    { nd := nd, allowed := classAllowed, attrdict := [("attrs", PyVal.ref r)] },
    finalize_dm_of_allowed st (freshDm nd) a (.ref r) rfl hr, rfl, ?_⟩
  intro k v
  unfold attrsObj
  rw [hr]
  rfl

/-- Witness for the amended C5 at the concrete source `sampleDm`. -/
theorem dmarray_derive_shares_attrs_ref_witness :
    ∃ st' b, arrayFinalize [[("k", PyVal.str "v")]] (freshDm sampleNd) (.dm sampleDm) =
        (st', .ok b) ∧
      dlook b.attrdict "attrs" = some (PyVal.ref 0) ∧
      ∀ k v, attrsObj (dictSetItem st' 0 k v) b = attrsObj (dictSetItem st' 0 k v) sampleDm :=
  dmarray_derive_shares_attrs_ref [[("k", PyVal.str "v")]] sampleDm sampleNd 0 rfl

/-- Claim C6: the Derive hook (`__array_finalize__` on a fresh instance) is
total — it never raises, for `None`, plain-array and `dmarray` sources —
and idempotent up to the observed attribute values: applying it twice with
the same source leaves the buffer, the allow-list and the observed `attrs`
mapping as after one application; and when the source lacks the `attrs`
attribute (a plain non-attributed array, or a `dmarray` whose `__dict__` is
empty) the new instance's `attrs` defaults to an empty mapping. -/
theorem dmarray_finalize_total_idempotent (st : Store) (nd nd2 : NdBuffer)
    (src : FinalizeSrc) :
    (arrayFinalize st (freshDm nd) src).2.isOk = true ∧
    (∃ st1 b1 st2 b2,
      arrayFinalize st (freshDm nd) src = (st1, .ok b1) ∧
      arrayFinalize st1 b1 src = (st2, .ok b2) ∧
      b2.nd = b1.nd ∧ b2.allowed = b1.allowed ∧ attrsObj st2 b2 = attrsObj st1 b1) ∧
    (∃ st1 b1, arrayFinalize st (freshDm nd) (.plain nd2) = (st1, .ok b1) ∧
      attrsObj st1 b1 = some []) ∧
    (∃ st1 b1, arrayFinalize st (freshDm nd) (.dm (freshDm nd2)) = (st1, .ok b1) ∧
      attrsObj st1 b1 = some []) := by
  refine ⟨?_, ?_, ?_, ?_⟩
  · cases src with
    | none => rfl
    | plain b => rw [finalize_plain_of_allowed st (freshDm nd) b rfl]; rfl
    | dm c =>
      cases h : dlook c.attrdict "attrs" with
      | none => rw [finalize_dm_noattrs_of_allowed st (freshDm nd) c rfl h]; rfl
      | some v => rw [finalize_dm_of_allowed st (freshDm nd) c v rfl h]; rfl
  · cases src with
    | none => exact ⟨st, freshDm nd, st, freshDm nd, rfl, rfl, rfl, rfl, rfl⟩
    | plain b =>
      refine ⟨st ++ [[]],
        { nd := nd, allowed := classAllowed, attrdict := [("attrs", PyVal.ref st.length)] },
        st ++ [[]] ++ [[]],
        { nd := nd, allowed := classAllowed,
          attrdict := [("attrs", PyVal.ref (st ++ [[]]).length)] },
        finalize_plain_of_allowed st (freshDm nd) b rfl,
        finalize_plain_of_allowed (st ++ [[]]) _ b rfl, rfl, rfl, ?_⟩
      rw [attrsObj_of_ref _ _ _ (dlook_dsetVal_self [] "attrs" (PyVal.ref (st ++ [[]]).length)),
        attrsObj_of_ref _ _ _ (dlook_dsetVal_self [] "attrs" (PyVal.ref st.length)),
        storeGet_append_self, storeGet_append_self]
    | dm c =>
      cases h : dlook c.attrdict "attrs" with
      | none =>
        refine ⟨st ++ [[]],
          { nd := nd, allowed := classAllowed, attrdict := [("attrs", PyVal.ref st.length)] },
          st ++ [[]] ++ [[]],
          { nd := nd, allowed := classAllowed,
            attrdict := [("attrs", PyVal.ref (st ++ [[]]).length)] },
          finalize_dm_noattrs_of_allowed st (freshDm nd) c rfl h,
          finalize_dm_noattrs_of_allowed (st ++ [[]]) _ c rfl h, rfl, rfl, ?_⟩
        rw [attrsObj_of_ref _ _ _ (dlook_dsetVal_self [] "attrs" (PyVal.ref (st ++ [[]]).length)),
          attrsObj_of_ref _ _ _ (dlook_dsetVal_self [] "attrs" (PyVal.ref st.length)),
          storeGet_append_self, storeGet_append_self]
      | some v =>
        have key : dsetVal (dsetVal (freshDm nd).attrdict "attrs" v) "attrs" v =
            dsetVal (freshDm nd).attrdict "attrs" v := dsetVal_dsetVal_self _ _ _
        have hB : arrayFinalize (st ++ [[]])
            { freshDm nd with attrdict := dsetVal (freshDm nd).attrdict "attrs" v } (.dm c) =
            (st ++ [[]] ++ [[]],
             .ok { freshDm nd with attrdict := dsetVal (freshDm nd).attrdict "attrs" v }) := by
          rw [finalize_dm_of_allowed (st ++ [[]])
            { freshDm nd with attrdict := dsetVal (freshDm nd).attrdict "attrs" v } c v rfl h]
          rw [show dsetVal ({ freshDm nd with
              attrdict := dsetVal (freshDm nd).attrdict "attrs" v } : Dmarray).attrdict
              "attrs" v = dsetVal (freshDm nd).attrdict "attrs" v from key]
        refine ⟨st ++ [[]],
          { freshDm nd with attrdict := dsetVal (freshDm nd).attrdict "attrs" v },
          st ++ [[]] ++ [[]],
          { freshDm nd with attrdict := dsetVal (freshDm nd).attrdict "attrs" v },
          finalize_dm_of_allowed st (freshDm nd) c v rfl h, hB, rfl, rfl, ?_⟩
        exact attrsObj_append_nil (st ++ [[]]) _
  · refine ⟨st ++ [[]],
      { nd := nd, allowed := classAllowed, attrdict := [("attrs", PyVal.ref st.length)] },
      finalize_plain_of_allowed st (freshDm nd) nd2 rfl, ?_⟩
    rw [attrsObj_of_ref _ _ _ (dlook_dsetVal_self [] "attrs" (PyVal.ref st.length)),
      storeGet_append_self]
  · refine ⟨st ++ [[]],
      { nd := nd, allowed := classAllowed, attrdict := [("attrs", PyVal.ref st.length)] },
      finalize_dm_noattrs_of_allowed st (freshDm nd) (freshDm nd2) rfl rfl, ?_⟩
    rw [attrsObj_of_ref _ _ _ (dlook_dsetVal_self [] "attrs" (PyVal.ref st.length)),
      storeGet_append_self]

/-- Claim C7: `Construct(x, attrs=m)` yields an instance whose `attrs`
equals the supplied mapping `m` (the dictionary at heap address `r`), and
`Construct(x)` with `attrs` omitted (`attrs=None`) yields an instance whose
`attrs` equals an empty mapping. -/
theorem dmarray_construct_attrs (st : Store) (input : NdBuffer) (r : Nat) :
    (∃ st' b, dmNew st input (.ref r) = (st', .ok b) ∧
       attrsObj st' b = some (storeGet st r)) ∧
    (∃ st' b, dmNew st input PyVal.nonev = (st', .ok b) ∧ attrsObj st' b = some []) := by
  constructor
  · refine ⟨st ++ [[]],
      { nd := input, allowed := classAllowed, attrdict := [("attrs", PyVal.ref r)] },
      dmNew_given st input (.ref r) (by simp), ?_⟩
    rw [attrsObj_of_ref _ _ r (dlook_dsetVal_self [] "attrs" (PyVal.ref r)), storeGet_append_nil]
  · refine ⟨st ++ [[]] ++ [[]],
      { nd := input, allowed := classAllowed,
        attrdict := [("attrs", PyVal.ref (st ++ [[]]).length)] },
      dmNew_default st input, ?_⟩
    rw [attrsObj_of_ref _ _ _ (dlook_dsetVal_self [] "attrs" (PyVal.ref (st ++ [[]]).length)),
      storeGet_append_self]

theorem dmSetattr_fresh_foo (b : Dmarray) (hb : b.allowed = classAllowed) (v : PyVal) :
    (dmSetattr b "foo" v).isOk = false := by
  unfold dmSetattr
  rw [if_neg (by decide), if_neg (by rw [hb]; decide)]
  rfl

theorem dmSetattr_attrs_isOk (b : Dmarray) (hb : "attrs" ∈ b.allowed) (v : PyVal) :
    (dmSetattr b "attrs" v).isOk = true := by
  rw [dmSetattr_attrs_ok b v hb]
  rfl

/-- Counterexample to claim C3: `c3Fresh` is the instance freshly
constructed by `Construct([7])` (the second component of
`dmNew [] sampleNd PyVal.nonev`), and on it
`SetAttribute("Allowed_Attributes", value)` succeeds although
`"Allowed_Attributes"` is neither `"attrs"` nor in the instance's
allow-list, so "succeeds exactly when the name equals attrs or is in the
allow-list" fails in the only-if direction. -/
theorem dmarray_setattr_gate_cex :
    (dmNew [] sampleNd PyVal.nonev).2 = .ok c3Fresh ∧
    (dmSetattr c3Fresh "Allowed_Attributes" (.strlist ["attrs", "x"])).isOk = true ∧
    ¬("Allowed_Attributes" = "attrs" ∨ "Allowed_Attributes" ∈ c3Fresh.allowed) := by
  refine ⟨by decide, by decide, by decide⟩

/-- Amended C3: `SetAttribute(name, value)` succeeds exactly when `name`
equals `"Allowed_Attributes"` (the gate lets the allow-list itself be
reassigned) or `name` is in the instance's current allow-list (which is
`["attrs"]` on every fresh instance); otherwise it raises the
disallowed-attribute `TypeError` synchronously, producing no updated
instance. On every freshly constructed instance `SetAttribute("foo", 1)`
fails and `SetAttribute("attrs", m)` succeeds. -/
theorem dmarray_setattr_gate (a : Dmarray) (n : String) (v w : PyVal) (st : Store)
    (input : NdBuffer) (m : PyVal) :
    ((dmSetattr a n v).isOk = true ↔ (n = "Allowed_Attributes" ∨ n ∈ a.allowed)) ∧
    ((dmSetattr a n v).isOk = false ↔
      dmSetattr a n v = .error "Only attribute listed in Allowed_Attributes can be set") ∧
    (∃ st' b, dmNew st input m = (st', .ok b) ∧
      (dmSetattr b "foo" (.int 1)).isOk = false ∧
      (dmSetattr b "attrs" w).isOk = true) := by
  have hmem : "attrs" ∈ classAllowed := by decide
  refine ⟨?_, ?_, ?_⟩
  · unfold dmSetattr
    by_cases h1 : n = "Allowed_Attributes"
    · rw [if_pos h1]
      cases v <;> simp [h1, Except.isOk, Except.toBool]
    · rw [if_neg h1]
      by_cases h2 : n ∈ a.allowed
      · rw [if_pos h2]
        simp [h1, h2, Except.isOk, Except.toBool]
      · rw [if_neg h2]
        simp [h1, h2, Except.isOk, Except.toBool]
  · unfold dmSetattr
    by_cases h1 : n = "Allowed_Attributes"
    · rw [if_pos h1]
      cases v <;> simp [Except.isOk, Except.toBool]
    · rw [if_neg h1]
      by_cases h2 : n ∈ a.allowed
      · rw [if_pos h2]
        simp [Except.isOk, Except.toBool]
      · rw [if_neg h2]
        simp [Except.isOk, Except.toBool]
  · by_cases hm : m = PyVal.nonev
    · subst hm
      exact ⟨st ++ [[]] ++ [[]],
        { nd := input, allowed := classAllowed,
          attrdict := [("attrs", PyVal.ref (st ++ [[]]).length)] },
        dmNew_default st input,
        dmSetattr_fresh_foo _ rfl _, dmSetattr_attrs_isOk _ hmem _⟩
    · exact ⟨st ++ [[]],
        { nd := input, allowed := classAllowed, attrdict := [("attrs", m)] },
        dmNew_given st input m hm,
        dmSetattr_fresh_foo _ rfl _, dmSetattr_attrs_isOk _ hmem _⟩

/-- Claim C4: deserializing a persisted state whose attribute tuple has two
extra slots beyond `attrs` restores `attrs` from slot 0, sets
`extra_attr_1` and `extra_attr_2` from slots 1 and 2, extends the
allow-list with both names, and a subsequent `SetAttribute("extra_attr_1",
newval)` succeeds. -/
theorem dmarray_setstate_extra_attrs (nd : NdBuffer) (v0 v1 v2 w : PyVal) :
    ∃ b, dmDeserialize { nd_state := nd, own_state := [v0, v1, v2] } = .ok b ∧
      b.nd = nd ∧
      dlook b.attrdict "attrs" = some v0 ∧
      dlook b.attrdict "extra_attr_1" = some v1 ∧
      dlook b.attrdict "extra_attr_2" = some v2 ∧
      b.allowed = ["attrs", "extra_attr_1", "extra_attr_2"] ∧
      (dmSetattr b "extra_attr_1" w).isOk = true :=
  ⟨{ nd := nd, allowed := ["attrs", "extra_attr_1", "extra_attr_2"],
     attrdict := [("attrs", v0), ("extra_attr_1", v1), ("extra_attr_2", v2)] },
   rfl, rfl, rfl, rfl, rfl, rfl, rfl⟩

/-- Claim C8: `Construct({"x": 1}, attrs=m)` (with `m` the mapping at heap
address `r`) stores the positional entries as ordinary mapping content —
looking up `"x"` gives 1 — and sets the `attrs` attribute to `m`;
`Construct(attrs=m)` yields `attrs` equal to `m` with the mapping content
otherwise empty. The claim's instance is `m = {"unit": "km"}`. -/
theorem spacedata_construct_content_attrs (st : Store) (r : Nat) :
    (dlook (spaceDataInit st (some [("x", .int 1)]) [("attrs", .ref r)]).2.content "x" =
        some (.int 1) ∧
      attrsObjSD (spaceDataInit st (some [("x", .int 1)]) [("attrs", .ref r)]).1
        (spaceDataInit st (some [("x", .int 1)]) [("attrs", .ref r)]).2 =
        some (storeGet st r)) ∧
    ((spaceDataInit st none [("attrs", .ref r)]).2.content = [] ∧
      attrsObjSD (spaceDataInit st none [("attrs", .ref r)]).1
        (spaceDataInit st none [("attrs", .ref r)]).2 = some (storeGet st r)) := by
  constructor
  · constructor
    · rfl
    · rw [spaceDataInit_with_attrs st (some [("x", PyVal.int 1)]) [("attrs", PyVal.ref r)]
          (PyVal.ref r) rfl,
        attrsObjSD_of_ref _ _ r rfl, storeGet_append_nil]
  · constructor
    · rfl
    · rw [spaceDataInit_with_attrs st none [("attrs", PyVal.ref r)] (PyVal.ref r) rfl,
        attrsObjSD_of_ref _ _ r rfl, storeGet_append_nil]

/-- Claim C9: when a keyword named `attrs` is supplied, it is removed from
the keyword set before the remaining entries are passed to the ordinary
dict constructor, and the supplied value becomes the instance's `attrs`
only if it supports item access; otherwise `attrs` stays the freshly
allocated empty mapping. -/
theorem spacedata_attrs_keyword_intercept (st : Store) (args : Option Dict) (kwargs : Dict)
    (v : PyVal) (h : dlook kwargs "attrs" = some v) :
    (spaceDataInit st args kwargs).2.content = dictInit args (dremove kwargs "attrs") ∧
    (if hasGetitem v then (spaceDataInit st args kwargs).2.attrsv = v
     else attrsObjSD (spaceDataInit st args kwargs).1 (spaceDataInit st args kwargs).2 =
       some []) := by
  rw [spaceDataInit_with_attrs st args kwargs v h]
  refine ⟨rfl, ?_⟩
  by_cases hg : hasGetitem v = true
  · rw [if_pos hg, if_pos hg]
  · rw [if_neg hg, if_neg hg,
      attrsObjSD_of_ref _ _ st.length rfl, storeGet_append_self]

/-- Witness for C9: the keyword `attrs = 5` (an integer, which has no
`__getitem__`): it is removed from the keyword set and the instance's
`attrs` is the empty mapping. -/
theorem spacedata_attrs_keyword_intercept_witness :
    (spaceDataInit [] none [("attrs", PyVal.int 5)]).2.content =
      dictInit none (dremove [("attrs", PyVal.int 5)] "attrs") ∧
    (if hasGetitem (PyVal.int 5) then
       (spaceDataInit [] none [("attrs", PyVal.int 5)]).2.attrsv = PyVal.int 5
     else attrsObjSD (spaceDataInit [] none [("attrs", PyVal.int 5)]).1
       (spaceDataInit [] none [("attrs", PyVal.int 5)]).2 = some []) :=
  spacedata_attrs_keyword_intercept [] none [("attrs", PyVal.int 5)] (PyVal.int 5) rfl

/-- Claim C10: only the keyword named `attrs` is intercepted: when no
`attrs` keyword is supplied, the positional entries — including a pair
whose key is `"attrs"` — pass through to the dict content unchanged (the
content's `"attrs"` lookup is exactly the positional mapping's), and the
instance's `attrs` attribute is the freshly allocated empty mapping. -/
theorem spacedata_positional_attrs_key (st : Store) (args : Option Dict) (kwargs : Dict)
    (h : dlook kwargs "attrs" = none) :
    (spaceDataInit st args kwargs).2.content = dictInit args kwargs ∧
    dlook (spaceDataInit st args kwargs).2.content "attrs" = dlook (args.getD []) "attrs" ∧
    attrsObjSD (spaceDataInit st args kwargs).1 (spaceDataInit st args kwargs).2 =
      some [] := by
  rw [spaceDataInit_no_attrs st args kwargs h]
  refine ⟨rfl, ?_, ?_⟩
  · exact dlook_foldl_dsetVal kwargs (args.getD []) "attrs" h
  · rw [attrsObjSD_of_ref _ _ st.length rfl, storeGet_append_self]

/-- Witness for C10: `Construct({"attrs": 5})` — the pair is stored as
dict content under the key `"attrs"` while the `attrs` attribute is the
empty mapping. -/
theorem spacedata_positional_attrs_key_witness :
    (spaceDataInit [] (some [("attrs", PyVal.int 5)]) []).2.content =
      dictInit (some [("attrs", PyVal.int 5)]) [] ∧
    dlook (spaceDataInit [] (some [("attrs", PyVal.int 5)]) []).2.content "attrs" =
      dlook ((some [("attrs", PyVal.int 5)]).getD []) "attrs" ∧
    attrsObjSD (spaceDataInit [] (some [("attrs", PyVal.int 5)]) []).1
      (spaceDataInit [] (some [("attrs", PyVal.int 5)]) []).2 = some [] :=
  spacedata_positional_attrs_key [] (some [("attrs", PyVal.int 5)]) [] rfl

